import Mathlib

/-!
Verification of the DCA scoring core and the frontend aggregation logic of
the `ar` market-dashboard repository.

Prices, indicator values, confidences and multipliers are modelled as exact
rationals (`ℚ`).  The backend scoring function `_analyze_dca_opportunity`
(described rule-by-rule in `src/docs/DCA_SIGNAL_OVERVIEW.md`) is not shipped
in the repository snapshot, so it is modelled from the specification; the
frontend components `DCAAnalysisSummary.jsx` and `SymbolOverview.jsx`, and
the `volume_level` classifier quoted in `src/docs/ENHANCED_VOLUME_ANALYSIS.md`,
are embedded directly from their source.
-/

namespace AR

/-- DCA signal values, as used by the backend and frontend. -/
inductive Signal
  | strong_buy
  | buy
  | hold
  | wait
  | avoid
deriving DecidableEq, Repr

/-- Market sentiment values. -/
inductive Sentiment
  | bullish
  | neutral
  | bearish
deriving DecidableEq, Repr

/-- Volume status categories produced by `volume_level`. -/
inductive VolStatus
  | very_high
  | high
  | normal
  | low
deriving DecidableEq, Repr

/-- Embedded from `src/docs/ENHANCED_VOLUME_ANALYSIS.md` (the backend
`volume_level` function, quoted there as code):
`if vr > 2: very_high elif vr > 1.2: high elif vr < 0.5: low else normal`. -/
def volume_level (vr : ℚ) : VolStatus :=
  if vr > 2 then .very_high
  else if vr > 1.2 then .high
  else if vr < 0.5 then .low
  else .normal

/-- A support or resistance price level with an integer strength. -/
structure PriceLevel where
  price : ℚ
  strength : ℕ
deriving DecidableEq, Repr

/-- Final recommendation object returned by the scoring engine. -/
structure Recommendation where
  signal : Signal
  confidence : ℚ
  multiplier : ℚ
  sentiment : Sentiment
  reasoning : List String
deriving DecidableEq, Repr

/-- Mutable accumulator state threaded through the rule battery. -/
structure ScoreState where
  signal : Signal
  confidence : ℚ
  multiplier : ℚ
  reasoning : List String
deriving DecidableEq, Repr

/-- Inputs of the scoring engine.  Optional indicators are `Option`-valued:
`none` models a missing (`None`/undefined) indicator. -/
structure ScoreInputs where
  closes : List ℚ
  currentPrice : ℚ
  atr : Option ℚ
  ema : Option ℚ
  sma : Option ℚ
  supports : List PriceLevel
  rsi : Option ℚ
  volumeRatio : Option ℚ
  volumeRatioAvg : Option ℚ
  volPriceRatio : Option ℚ
  volumeStatus : Option VolStatus
deriving DecidableEq, Repr

/-- Modelled from the spec: rules 1-3 of §4.3 (RSI checks). A missing RSI
disables all three rules. -/
def rsiRules (rsi : Option ℚ) (s : ScoreState) : ScoreState :=
  match rsi with
  | none => s
  | some r =>
    let s :=
      if r < 30 then
        { s with confidence := s.confidence + 15, signal := .buy,
                 multiplier := s.multiplier + 0.1,
                 reasoning := s.reasoning ++ ["RSI indicates oversold conditions"] }
      else s
    let s :=
      if 30 ≤ r ∧ r < 40 then
        { s with confidence := s.confidence + 10, signal := .buy,
                 reasoning := s.reasoning ++ ["RSI shows potential buying opportunity"] }
      else s
    if r > 70 then
      { s with confidence := s.confidence - 20, signal := .wait,
               multiplier := s.multiplier - 0.1,
               reasoning := s.reasoning ++ ["RSI indicates overbought conditions"] }
    else s

/-- Modelled from the spec: rules 4-5 of §4.3 (EMA21 trend tests). -/
def emaRules (price : ℚ) (ema : Option ℚ) (s : ScoreState) : ScoreState :=
  match ema with
  | none => s
  | some e =>
    let s :=
      if price > e * 1.02 then
        { s with confidence := s.confidence + 10,
                 reasoning := s.reasoning ++ ["Price above EMA21 - short-term uptrend"] }
      else s
    if price < e * 0.98 then
      { s with confidence := s.confidence - 15, signal := .wait,
               multiplier := s.multiplier - 0.1,
               reasoning := s.reasoning ++ ["Price below EMA21 - short-term downtrend"] }
    else s

/-- Modelled from the spec: rules 6-7 of §4.3 (SMA30 trend tests). -/
def smaRules (price : ℚ) (sma : Option ℚ) (s : ScoreState) : ScoreState :=
  match sma with
  | none => s
  | some m =>
    let s :=
      if price > m * 1.05 then
        { s with confidence := s.confidence + 10,
                 reasoning := s.reasoning ++ ["Strong medium-term uptrend"] }
      else s
    if price < m * 0.95 then
      { s with confidence := s.confidence - 10,
               reasoning := s.reasoning ++ ["Medium-term downtrend"] }
    else s

/-- Modelled from the spec: rules 8-9 of §4.3 (ATR volatility checks),
with `atr_percent = atr / price * 100`. -/
def atrRules (price : ℚ) (atr : Option ℚ) (s : ScoreState) : ScoreState :=
  match atr with
  | none => s
  | some a =>
    let pct := a / price * 100
    let s :=
      if pct > 5 then
        { s with multiplier := s.multiplier - 0.1,
                 reasoning := s.reasoning ++ ["High volatility - consider smaller position"] }
      else s
    if pct < 1 then
      { s with confidence := s.confidence + 5,
               reasoning := s.reasoning ++ ["Low volatility - stable conditions"] }
    else s

/-- Modelled from the spec: rules 10-11 of §4.3 (support proximity of the
nearest support level; no support levels means both rules are no-ops). -/
def supportRules (price : ℚ) (supports : List PriceLevel) (s : ScoreState) : ScoreState :=
  match supports.head? with
  | none => s
  | some sup =>
    let dist := |price - sup.price|
    if dist ≤ price * 0.02 then
      { s with confidence := s.confidence + 10, signal := .strong_buy,
               multiplier := s.multiplier + 0.2,
               reasoning := s.reasoning ++ ["Price near strong support level"] }
    else if dist ≤ price * 0.05 then
      { s with confidence := s.confidence + 5, multiplier := s.multiplier + 0.1,
               reasoning := s.reasoning ++ ["Price approaching support level"] }
    else s

/-- Modelled from the spec: rules 12-14 of §4.3 (volume status diagnostics,
with the conditional `vol_price_ratio` sub-rules). -/
def volumeRules (vs : Option VolStatus) (vpr : Option ℚ) (s : ScoreState) : ScoreState :=
  match vs with
  | none => s
  | some .very_high =>
    let s := { s with confidence := s.confidence + 15, multiplier := s.multiplier + 0.2,
                      reasoning := s.reasoning ++ ["Very high volume - potential breakout/breakdown"] }
    match vpr with
    | some v =>
      if v > 1.5 then
        { s with confidence := s.confidence + 10,
                 reasoning := s.reasoning ++ ["Volume confirms strong price movement"] }
      else s
    | none => s
  | some .high =>
    let s := { s with confidence := s.confidence + 10, multiplier := s.multiplier + 0.1,
                      reasoning := s.reasoning ++ ["High volume supports move"] }
    match vpr with
    | some v =>
      if v > 1 then
        { s with confidence := s.confidence + 5,
                 reasoning := s.reasoning ++ ["Volume supports price movement"] }
      else s
    | none => s
  | some .low =>
    let s := { s with confidence := s.confidence - 10, multiplier := s.multiplier - 0.1,
                      reasoning := s.reasoning ++ ["Low volume"] }
    match vpr with
    | some v =>
      if v < 0.5 then
        { s with confidence := s.confidence - 5,
                 reasoning := s.reasoning ++ ["Price moving without volume support"] }
      else s
    | none => s
  | some .normal => s

/-- Modelled from the spec: rules 15-16 of §4.3 (volume-ratio trend). -/
def volTrendRules (vra : Option ℚ) (s : ScoreState) : ScoreState :=
  match vra with
  | none => s
  | some v =>
    let s :=
      if v > 1.3 then
        { s with confidence := s.confidence + 5,
                 reasoning := s.reasoning ++ ["Volume trend is increasing"] }
      else s
    if v < 0.7 then
      { s with confidence := s.confidence - 5,
               reasoning := s.reasoning ++ ["Volume trend is decreasing"] }
    else s

/-- Percent change of the latest bar, computed from the close series
(latest close last); `none` when fewer than two closes exist. -/
def latestChangePct (closes : List ℚ) : Option ℚ :=
  match closes.reverse with
  | a :: b :: _ => some ((a / b - 1) * 100)
  | _ => none

/-- Modelled from the spec: rule 17 of §4.3 (volume/price divergence). -/
def divergenceRule (vpr : Option ℚ) (pc : Option ℚ) (s : ScoreState) : ScoreState :=
  match vpr, pc with
  | some v, some c =>
    if v < 0.3 ∧ |c| > 2 then
      { s with confidence := s.confidence - 10, signal := .wait,
               reasoning := s.reasoning ++ ["Price moving without volume confirmation"] }
    else s
  | _, _ => s

/-- Clamp a rational to the interval `[lo, hi]`. -/
def clampQ (lo hi x : ℚ) : ℚ := min hi (max lo x)

/-- Modelled from the spec: the confidence ladder of §4.3 that determines
the final signal. -/
def ladderSignal (c : ℚ) : Signal :=
  if c ≥ 80 then .strong_buy
  else if c ≥ 60 then .buy
  else if c ≥ 40 then .hold
  else if c ≥ 20 then .wait
  else .avoid

/-- Modelled from the spec: sentiment derived from the final signal. -/
def sentimentOf : Signal → Sentiment
  | .strong_buy => .bullish
  | .buy => .bullish
  | .hold => .neutral
  | .wait => .bearish
  | .avoid => .bearish

/-- Modelled from the spec: the finalization phase of §4.3 — clamp
confidence and multiplier, override the signal by the confidence ladder,
derive sentiment from the final signal. -/
def finalize (s : ScoreState) : Recommendation :=
  let c := clampQ 0 100 s.confidence
  let m := clampQ 0.5 2 s.multiplier
  let sig := ladderSignal c
  ⟨sig, c, m, sentimentOf sig, s.reasoning⟩

/-- Modelled from the spec: the scoring engine `_analyze_dca_opportunity`
of §4.3 — the ordered 17-rule battery applied to the initial state
`(hold, 50, 1.0, [])`, followed by finalization. -/
def analyzeDcaOpportunity (i : ScoreInputs) : Recommendation :=
  let s0 : ScoreState := ⟨.hold, 50, 1, []⟩
  let s1 := rsiRules i.rsi s0
  let s2 := emaRules i.currentPrice i.ema s1
  let s3 := smaRules i.currentPrice i.sma s2
  let s4 := atrRules i.currentPrice i.atr s3
  let s5 := supportRules i.currentPrice i.supports s4
  let s6 := volumeRules i.volumeStatus i.volPriceRatio s5
  let s7 := volTrendRules i.volumeRatioAvg s6
  let s8 := divergenceRule i.volPriceRatio (latestChangePct i.closes) s7
  finalize s8

/-- Consecutive differences of a series: `diffs [a, b, c] = [b - a, c - b]`. -/
def diffs : List ℚ → List ℚ
  | a :: b :: rest => (b - a) :: diffs (b :: rest)
  | _ => []

/-- Wilder smoothing step applied over a list:
`avg := (avg * 13 + x) / 14` for each further sample. -/
def wilderFold (seed : ℚ) (xs : List ℚ) : ℚ :=
  xs.foldl (fun a x => (a * 13 + x) / 14) seed

/-- Per-bar gains of a close series (the positive diffs, clipped at 0). -/
def gainsOf (closes : List ℚ) : List ℚ := (diffs closes).map fun d => max d 0

/-- Per-bar losses of a close series (the negated negative diffs). -/
def lossesOf (closes : List ℚ) : List ℚ := (diffs closes).map fun d => max (-d) 0

/-- Wilder-smoothed average gain: seeded by the simple mean of the first 14
gains, then smoothed over the remaining bars. -/
def avgGain14 (closes : List ℚ) : ℚ :=
  wilderFold (((gainsOf closes).take 14).sum / 14) ((gainsOf closes).drop 14)

/-- Wilder-smoothed average loss, symmetric to `avgGain14`. -/
def avgLoss14 (closes : List ℚ) : ℚ :=
  wilderFold (((lossesOf closes).take 14).sum / 14) ((lossesOf closes).drop 14)

/-- Modelled from the spec: RSI(14) with Wilder smoothing (§4.1) — average
gains/losses seeded by the simple mean of the first 14 gains/losses, then
Wilder-smoothed over the remaining bars; `RSI = 100` when `avg_loss = 0`
and `avg_gain > 0`, `50` when both are `0`, otherwise
`100 - 100 / (1 + avg_gain / avg_loss)`.  Returns `none` on windows
shorter than 15 closes. -/
def rsi14 (closes : List ℚ) : Option ℚ :=
  if closes.length < 15 then none
  else if avgLoss14 closes = 0 then
    if avgGain14 closes > 0 then some 100 else some 50
  else some (100 - 100 / (1 + avgGain14 closes / avgLoss14 closes))

/-- An OHLCV bar restricted to the fields the level extractor reads. -/
structure OhlcvBar where
  high : ℚ
  low : ℚ
deriving DecidableEq, Repr

/-- Values of a series inside the symmetric index neighborhood of radius
`radius` around index `i` (truncated at the ends of the series). -/
def neighborhood (xs : List ℚ) (i radius : ℕ) : List ℚ :=
  (xs.drop (i - radius)).take (i - (i - radius) + radius + 1)

/-- Modelled from the spec: a bar is a local maximum when its value is the
maximum within the symmetric neighborhood (§4.2 step 1, radius 5). -/
def isLocalMax (xs : List ℚ) (i : ℕ) : Bool :=
  match xs[i]? with
  | some v => (neighborhood xs i 5).all (fun y => decide (y ≤ v))
  | none => false

/-- Modelled from the spec: local-minimum test, symmetric to `isLocalMax`. -/
def isLocalMin (xs : List ℚ) (i : ℕ) : Bool :=
  match xs[i]? with
  | some v => (neighborhood xs i 5).all (fun y => decide (v ≤ y))
  | none => false

/-- Resistance candidates: highs that are local maxima. -/
def resistanceCandidates (highs : List ℚ) : List ℚ :=
  (List.range highs.length).filterMap fun i =>
    match highs[i]? with
    | some v => if isLocalMax highs i then some v else none
    | none => none

/-- Support candidates: lows that are local minima. -/
def supportCandidates (lows : List ℚ) : List ℚ :=
  (List.range lows.length).filterMap fun i =>
    match lows[i]? with
    | some v => if isLocalMin lows i then some v else none
    | none => none

/-- Modelled from the spec: merge a candidate into the level list (§4.2
step 3) — if an existing level is within `gap`, keep whichever price is
closer to the current price and increment its strength; otherwise append a
fresh level of strength 1. -/
def mergeInsert (gap cur p : ℚ) : List PriceLevel → List PriceLevel
  | [] => [⟨p, 1⟩]
  | l :: rest =>
    if |l.price - p| < gap then
      (if |p - cur| < |l.price - cur| then ⟨p, l.strength + 1⟩
       else ⟨l.price, l.strength + 1⟩) :: rest
    else l :: mergeInsert gap cur p rest

/-- Fold all candidates through `mergeInsert`. -/
def mergeLevels (gap cur : ℚ) (ps : List ℚ) : List PriceLevel :=
  ps.foldl (fun acc p => mergeInsert gap cur p acc) []

/-- Fibonacci retracement ratios used for backfilling (§4.2 step 5). -/
def fibRatios : List ℚ := [0.236, 0.382, 0.5, 0.618, 0.786]

/-- Modelled from the spec: Fibonacci backfill levels from the window's
high/low range, tagged with strength 0 (lower than any genuine extremum);
skipped when the window is degenerate (`hi = lo`). -/
def fibLevels (hi lo : ℚ) : List PriceLevel :=
  if hi = lo then []
  else fibRatios.map fun r => ⟨lo + r * (hi - lo), 0⟩

/-- Proximity-to-current-price ordering on levels (nearest first). -/
def proxRel (cur : ℚ) (a b : PriceLevel) : Prop :=
  |a.price - cur| ≤ |b.price - cur|

instance (cur : ℚ) : DecidableRel (proxRel cur) := fun a b =>
  inferInstanceAs (Decidable (_ ≤ _))

instance (cur : ℚ) : IsTotal PriceLevel (proxRel cur) :=
  ⟨fun a b => le_total _ _⟩

instance (cur : ℚ) : IsTrans PriceLevel (proxRel cur) :=
  ⟨fun _ _ _ hab hbc => le_trans hab hbc⟩

/-- Sort levels nearest-to-current-price first and keep at most 5
(§4.2 step 4). -/
def rankLevels (cur : ℚ) (ls : List PriceLevel) : List PriceLevel :=
  (List.insertionSort (proxRel cur) ls).take 5

/-- Maximum of a rational list (0 on the empty list). -/
def maxOf (xs : List ℚ) : ℚ := xs.foldl max (xs.headD 0)

/-- Minimum of a rational list (0 on the empty list). -/
def minOf (xs : List ℚ) : ℚ := xs.foldl min (xs.headD 0)

/-- Modelled from the spec: the Level Extractor (§4.2) — local-extrema
candidates, minimum-gap merging, Fibonacci backfill when fewer than 5
genuine levels exist, then proximity ranking truncated to 5 per side.
Returns `(supports, resistances)`. -/
def extractLevels (bars : List OhlcvBar) (cur gap : ℚ) :
    List PriceLevel × List PriceLevel :=
  let highs := bars.map (·.high)
  let lows := bars.map (·.low)
  let hi := maxOf highs
  let lo := minOf lows
  let sup := mergeLevels gap cur (supportCandidates lows)
  let res := mergeLevels gap cur (resistanceCandidates highs)
  let supAll := if sup.length < 5 then sup ++ fibLevels hi lo else sup
  let resAll := if res.length < 5 then res ++ fibLevels hi lo else res
  (rankLevels cur supAll, rankLevels cur resAll)

/-- A market-overview entry as consumed by `DCAAnalysisSummary.jsx`;
`dca_signal` is `none` for a missing field and `some ""` models the other
falsy string value. -/
structure MarketEntry where
  sym : String
  dca_signal : Option String
deriving DecidableEq, Repr

/-- Embedded from `src/frontend/src/components/DCAAnalysisSummary.jsx`
line 10: the expression `symbol.dca_signal || 'hold'` — a missing or falsy
signal defaults to `"hold"`. -/
def signalKey (s : MarketEntry) : String :=
  match s.dca_signal with
  | none => "hold"
  | some v => if v = "" then "hold" else v

/-- Own property names of `Object.prototype`: the keys for which a
property read on a plain empty object returns a truthy inherited value
instead of `undefined`. -/
def protoProps : List String :=
  ["constructor", "hasOwnProperty", "isPrototypeOf", "propertyIsEnumerable",
   "toLocaleString", "toString", "valueOf", "__proto__",
   "__defineGetter__", "__defineSetter__", "__lookupGetter__",
   "__lookupSetter__"]

/-- Own-key accumulator step describing the successful (non-throwing) path
of the reduce: push the entry onto the group of key `k`, creating the group
at the end when absent (keys stay unique, new keys appear in insertion
order). -/
def pushToKey (k : String) (s : MarketEntry) :
    List (String × List MarketEntry) → List (String × List MarketEntry)
  | [] => [(k, [s])]
  | p :: rest =>
    if p.1 = k then (p.1, p.2 ++ [s]) :: rest
    else p :: pushToKey k s rest

/-- Embedded from `src/frontend/src/components/DCAAnalysisSummary.jsx`
lines 9-15, one reduce step with JS property-lookup semantics: when the
accumulator object has no own property named `k`, the guard
`if (!acc[signal])` still reads a truthy value through the prototype chain
for any `k` naming an `Object.prototype` member, so the group is never
initialized and the subsequent `acc[signal].push(symbol)` throws a
TypeError — modelled as `none`. -/
def pushToKeyJS (k : String) (s : MarketEntry) :
    List (String × List MarketEntry) →
      Option (List (String × List MarketEntry))
  | [] => if k ∈ protoProps then none else some [(k, [s])]
  | p :: rest =>
    if p.1 = k then some ((p.1, p.2 ++ [s]) :: rest)
    else (pushToKeyJS k s rest).map fun acc => p :: acc

/-- Run the grouping reduce over the remaining entries, propagating a
TypeError (`none`) from any step. -/
def groupedJSAux : List (String × List MarketEntry) → List MarketEntry →
    Option (List (String × List MarketEntry))
  | acc, [] => some acc
  | acc, s :: rest =>
    (pushToKeyJS (signalKey s) s acc).bind fun acc2 => groupedJSAux acc2 rest

/-- Embedded from `src/frontend/src/components/DCAAnalysisSummary.jsx`
lines 8-16: the `reduce` that groups `marketData` by DCA signal, starting
from an empty plain object; `none` models the TypeError thrown when a
signal key names an `Object.prototype` property. -/
def groupedBySignalJS (marketData : List MarketEntry) :
    Option (List (String × List MarketEntry)) :=
  groupedJSAux [] marketData

/-- Own-key description of the reduce's successful path; `groupedBySignalJS`
agrees with `some` of this accumulator exactly when no signal key names an
`Object.prototype` property. -/
def groupedBySignal (marketData : List MarketEntry) :
    List (String × List MarketEntry) :=
  marketData.foldl (fun acc s => pushToKey (signalKey s) s acc) []

/-- Members of the group of key `k` (empty when the key is absent); the
first matching key wins, mirroring JS object-property lookup on the unique
keys that `pushToKey` maintains. -/
def groupOf (k : String) : List (String × List MarketEntry) → List MarketEntry
  | [] => []
  | p :: rest => if p.1 = k then p.2 else groupOf k rest

/-- Total number of entries held across all groups. -/
def sumLens (groups : List (String × List MarketEntry)) : ℕ :=
  (groups.map fun p => p.2.length).sum

/-- A level row as rendered by `SymbolOverview.jsx`: a price plus a display
label (a strength number or a moving-average name). -/
structure DispLevel where
  level : ℚ
  label : String
deriving DecidableEq, Repr

/-- Embedded from `src/frontend/src/components/SymbolOverview.jsx`
line 132: de-duplication of the merged level list by the `level + label`
key (keeping one entry per key, in first-occurrence order). -/
def dedupLevels (ls : List DispLevel) : List DispLevel :=
  ls.foldl
    (fun acc l =>
      if acc.any (fun m => decide (m.level = l.level ∧ m.label = l.label)) then acc
      else acc ++ [l])
    []

/-- Descending-price ordering used by the `sort((a, b) => b.level - a.level)`
calls in `SymbolOverview.jsx`. -/
def descRel (a b : DispLevel) : Prop := b.level ≤ a.level

instance : DecidableRel descRel := fun a b =>
  inferInstanceAs (Decidable (_ ≤ _))

instance : IsTotal DispLevel descRel := ⟨fun a b => le_total _ _⟩

instance : IsTrans DispLevel descRel :=
  ⟨fun _ _ _ hab hbc => le_trans hbc hab⟩

/-- Embedded from `src/frontend/src/components/SymbolOverview.jsx`
line 135: `uniqueLevels.filter(l => l.level > current_price)` sorted in
descending price order. -/
def aboveLevels (ls : List DispLevel) (cur : ℚ) : List DispLevel :=
  List.insertionSort descRel ((dedupLevels ls).filter fun l => decide (cur < l.level))

/-- Embedded from `src/frontend/src/components/SymbolOverview.jsx`
line 136: `uniqueLevels.filter(l => l.level < current_price)` sorted in
descending price order. -/
def belowLevels (ls : List DispLevel) (cur : ℚ) : List DispLevel :=
  List.insertionSort descRel ((dedupLevels ls).filter fun l => decide (l.level < cur))

/-- Executable absolute value on rationals. -/
def qabs (x : ℚ) : ℚ := if x < 0 then -x else x

/-- Proximity ordering on display levels (via the executable absolute
value `qabs`), used to state that the rendered lists are not
proximity-ordered. -/
def dispProxRel (cur : ℚ) (a b : DispLevel) : Prop :=
  qabs (a.level - cur) ≤ qabs (b.level - cur)

instance (cur : ℚ) : DecidableRel (dispProxRel cur) := fun a b =>
  inferInstanceAs (Decidable (_ ≤ _))

theorem le_clampQ (lo hi x : ℚ) (h : lo ≤ hi) : lo ≤ clampQ lo hi x :=
  le_min h (le_max_left lo x)

theorem clampQ_le (lo hi x : ℚ) : clampQ lo hi x ≤ hi :=
  min_le_left hi _

/-- C1: the final signal of every recommendation is exactly the confidence
ladder applied to the final (clamped) confidence; the finalization override
supersedes any signal value written by individual rules. -/
theorem final_signal_eq_ladder (i : ScoreInputs) :
    (analyzeDcaOpportunity i).signal =
      ladderSignal (analyzeDcaOpportunity i).confidence := rfl

/-- C2: after finalization the confidence always lies in `[0, 100]` and the
amount multiplier in `[0.5, 2.0]`, for every input. -/
theorem recommendation_bounds (i : ScoreInputs) :
    0 ≤ (analyzeDcaOpportunity i).confidence ∧
    (analyzeDcaOpportunity i).confidence ≤ 100 ∧
    (0.5 : ℚ) ≤ (analyzeDcaOpportunity i).multiplier ∧
    (analyzeDcaOpportunity i).multiplier ≤ 2 :=
  ⟨le_clampQ 0 100 _ (by norm_num), clampQ_le 0 100 _,
   le_clampQ 0.5 2 _ (by norm_num), clampQ_le 0.5 2 _⟩

/-- C3: the scoring engine is a pure deterministic function — equal inputs
produce equal recommendation objects, with no hidden state. -/
theorem analyze_deterministic (i j : ScoreInputs) (h : i = j) :
    analyzeDcaOpportunity i = analyzeDcaOpportunity j := by rw [h]

/-- Witness for C3 at a concrete input. -/
theorem analyze_deterministic_witness :
    analyzeDcaOpportunity ⟨[], 100, none, none, none, [], none, none, none, none, none⟩ =
      analyzeDcaOpportunity ⟨[], 100, none, none, none, [], none, none, none, none, none⟩ :=
  analyze_deterministic _ _ rfl

/-- C5: the `volume_level` classification is a total threshold ladder on the
volume ratio — `very_high` iff `> 2`, `high` iff `1.2 < vr ≤ 2`, `low` iff
`< 0.5`, `normal` iff `0.5 ≤ vr ≤ 1.2`. -/
theorem volume_level_ladder (vr : ℚ) :
    (volume_level vr = .very_high ↔ 2 < vr) ∧
    (volume_level vr = .high ↔ 1.2 < vr ∧ vr ≤ 2) ∧
    (volume_level vr = .low ↔ vr < 0.5) ∧
    (volume_level vr = .normal ↔ 0.5 ≤ vr ∧ vr ≤ 1.2) := by
  unfold volume_level
  split_ifs with h1 h2 h3 <;> push_neg at * <;>
    refine ⟨?_, ?_, ?_, ?_⟩ <;> (constructor <;> intro h) <;>
    first
      | rfl
      | linarith
      | (constructor <;> linarith)
      | (exfalso; linarith)
      | (exfalso; obtain ⟨ha, hb⟩ := h; linarith)
      | (simp at h)

/-- C6: the sentiment field is derived solely from the final signal:
strong_buy and buy map to bullish, hold to neutral, wait and avoid to
bearish, for every input. -/
theorem sentiment_from_final_signal (i : ScoreInputs) :
    (analyzeDcaOpportunity i).sentiment =
      sentimentOf (analyzeDcaOpportunity i).signal ∧
    sentimentOf .strong_buy = .bullish ∧ sentimentOf .buy = .bullish ∧
    sentimentOf .hold = .neutral ∧ sentimentOf .wait = .bearish ∧
    sentimentOf .avoid = .bearish :=
  ⟨rfl, rfl, rfl, rfl, rfl, rfl⟩

/-- C8: a missing optional indicator (`none`) turns exactly the rules that
reference it into no-ops — the engine never substitutes a numeric default —
and with every optional input missing the engine still returns the
finalized baseline recommendation (it is a total function). -/
theorem missing_inputs_disable_rules :
    (∀ s, rsiRules none s = s) ∧
    (∀ p s, emaRules p none s = s) ∧
    (∀ p s, smaRules p none s = s) ∧
    (∀ p s, atrRules p none s = s) ∧
    (∀ p s, supportRules p [] s = s) ∧
    (∀ vpr s, volumeRules none vpr s = s) ∧
    (∀ s, volTrendRules none s = s) ∧
    (∀ pc s, divergenceRule none pc s = s) ∧
    (∀ vpr s, divergenceRule vpr none s = s) ∧
    (∀ closes p,
      analyzeDcaOpportunity ⟨closes, p, none, none, none, [], none, none, none, none, none⟩ =
        ⟨.hold, 50, 1, .neutral, []⟩) := by
  refine ⟨fun s => rfl, fun p s => rfl, fun p s => rfl, fun p s => rfl,
          fun p s => rfl, fun vpr s => rfl, fun s => rfl,
          fun pc s => by cases pc <;> rfl,
          fun vpr s => by cases vpr <;> rfl,
          fun closes p => ?_⟩
  have h : analyzeDcaOpportunity
      ⟨closes, p, none, none, none, [], none, none, none, none, none⟩ =
      finalize ⟨.hold, 50, 1, []⟩ := rfl
  have hc : clampQ 0 100 (50 : ℚ) = 50 := by
    rw [clampQ, max_eq_right, min_eq_right] <;> norm_num
  have hm : clampQ 0.5 2 (1 : ℚ) = 1 := by
    rw [clampQ, max_eq_right, min_eq_right] <;> norm_num
  have hsig : ladderSignal (50 : ℚ) = .hold := by
    rw [ladderSignal, if_neg (by norm_num), if_neg (by norm_num), if_pos (by norm_num)]
  rw [h]
  show Recommendation.mk (ladderSignal (clampQ 0 100 50)) (clampQ 0 100 50)
      (clampQ 0.5 2 1) (sentimentOf (ladderSignal (clampQ 0 100 50))) [] = _
  rw [hc, hm, hsig]
  rfl

theorem groupOf_pushToKey (k k' : String) (s : MarketEntry) :
    ∀ acc, groupOf k (pushToKey k' s acc) =
      if k' = k then groupOf k acc ++ [s] else groupOf k acc
  | [] => by by_cases h : k' = k <;> simp [pushToKey, groupOf, h]
  | p :: rest => by
    by_cases hp : p.1 = k'
    · by_cases hk : k' = k
      · subst hk
        simp [pushToKey, groupOf, hp]
      · have hpk : p.1 ≠ k := fun h => hk (hp ▸ h)
        simp [pushToKey, groupOf, hp, hk, hpk]
    · by_cases hpk : p.1 = k
      · have hne : k' ≠ k := fun h => hp (h ▸ hpk)
        simp [pushToKey, groupOf, hp, hpk, hne, Ne.symm hne]
      · simp [pushToKey, groupOf, hp, hpk, groupOf_pushToKey k k' s rest]

theorem sumLens_cons (p : String × List MarketEntry)
    (rest : List (String × List MarketEntry)) :
    sumLens (p :: rest) = p.2.length + sumLens rest := by
  simp [sumLens]

theorem sumLens_pushToKey (k : String) (s : MarketEntry) :
    ∀ acc, sumLens (pushToKey k s acc) = sumLens acc + 1
  | [] => by simp [pushToKey, sumLens]
  | p :: rest => by
    by_cases hp : p.1 = k
    · rw [pushToKey, if_pos hp, sumLens_cons, sumLens_cons]
      simp
      omega
    · rw [pushToKey, if_neg hp, sumLens_cons, sumLens_cons,
          sumLens_pushToKey k s rest]
      omega

theorem groupOf_foldl (k : String) :
    ∀ (md : List MarketEntry) (acc : List (String × List MarketEntry)),
      groupOf k (md.foldl (fun a s => pushToKey (signalKey s) s a) acc) =
        groupOf k acc ++ md.filter (fun s => signalKey s = k)
  | [], acc => by simp
  | s :: rest, acc => by
    simp only [List.foldl_cons, List.filter_cons]
    rw [groupOf_foldl k rest, groupOf_pushToKey]
    by_cases h : signalKey s = k
    · simp [h, List.append_assoc]
    · simp [h]

theorem sumLens_foldl :
    ∀ (md : List MarketEntry) (acc : List (String × List MarketEntry)),
      sumLens (md.foldl (fun a s => pushToKey (signalKey s) s a) acc) =
        sumLens acc + md.length
  | [], acc => by simp
  | s :: rest, acc => by
    simp only [List.foldl_cons, List.length_cons]
    rw [sumLens_foldl rest, sumLens_pushToKey]
    omega

theorem pushToKeyJS_eq_pushToKey (k : String) (s : MarketEntry)
    (hk : k ∉ protoProps) :
    ∀ acc, pushToKeyJS k s acc = some (pushToKey k s acc)
  | [] => by simp [pushToKeyJS, pushToKey, hk]
  | p :: rest => by
    by_cases hp : p.1 = k
    · simp [pushToKeyJS, pushToKey, hp]
    · simp [pushToKeyJS, pushToKey, hp, pushToKeyJS_eq_pushToKey k s hk rest]

theorem groupedJSAux_eq_foldl :
    ∀ (md : List MarketEntry) (acc : List (String × List MarketEntry)),
      (∀ s ∈ md, signalKey s ∉ protoProps) →
      groupedJSAux acc md =
        some (md.foldl (fun a s => pushToKey (signalKey s) s a) acc)
  | [], acc, _ => rfl
  | s :: rest, acc, h => by
    simp only [groupedJSAux, List.foldl_cons]
    rw [pushToKeyJS_eq_pushToKey (signalKey s) s (h s (List.mem_cons_self s rest)),
        Option.some_bind]
    exact groupedJSAux_eq_foldl rest _
      fun x hx => h x (List.mem_cons_of_mem _ hx)

/-- Counterexample to C9 as stated: an entry whose `dca_signal` is the
unexpected string `"toString"` is never grouped — the reduce reads a truthy
inherited property, skips initialization, and throws a TypeError on
`.push`, so the one-element input yields no grouping at all (group sizes
cannot sum to the input length). -/
theorem grouping_throws_on_proto_key :
    groupedBySignalJS [⟨"BTC", some "toString"⟩] = none ∧
    ([⟨"BTC", some "toString"⟩] : List MarketEntry).length = 1 :=
  ⟨rfl, rfl⟩

/-- C9 (amended): every element of `marketData` whose defaulted signal does
not name an `Object.prototype` property is assigned to exactly one signal
group; when all signals avoid those property names the reduce succeeds, the
group of any key `k` is exactly the entries whose (defaulted) signal is
`k`, the group sizes sum to `marketData.length`, and a missing or empty
(falsy) `dca_signal` defaults to the `hold` group. -/
theorem grouping_partitions_amended (md : List MarketEntry)
    (h : ∀ s ∈ md, signalKey s ∉ protoProps) :
    ∃ groups, groupedBySignalJS md = some groups ∧
      (∀ k, groupOf k groups = md.filter (fun s => signalKey s = k)) ∧
      sumLens groups = md.length ∧
      (∀ sym, signalKey ⟨sym, none⟩ = "hold" ∧ signalKey ⟨sym, some ""⟩ = "hold") := by
  refine ⟨groupedBySignal md, ?_, fun k => ?_, ?_, fun sym => ⟨rfl, rfl⟩⟩
  · rw [groupedBySignalJS, groupedJSAux_eq_foldl md [] h]
    rfl
  · rw [groupedBySignal, groupOf_foldl]
    rfl
  · rw [groupedBySignal, sumLens_foldl]
    simp [sumLens]

/-- Witness for the amended C9 at a concrete one-element input with an
ordinary signal string. -/
theorem grouping_partitions_amended_witness :
    (∀ s ∈ ([⟨"BTC", some "buy"⟩] : List MarketEntry),
      signalKey s ∉ protoProps) ∧
    (∃ groups,
      groupedBySignalJS ([⟨"BTC", some "buy"⟩] : List MarketEntry) = some groups ∧
      (∀ k, groupOf k groups =
        ([⟨"BTC", some "buy"⟩] : List MarketEntry).filter
          (fun s => signalKey s = k)) ∧
      sumLens groups = ([⟨"BTC", some "buy"⟩] : List MarketEntry).length ∧
      (∀ sym, signalKey ⟨sym, none⟩ = "hold" ∧
        signalKey ⟨sym, some ""⟩ = "hold")) :=
  ⟨by decide, grouping_partitions_amended _ (by decide)⟩

/-- C7: the Level Extractor always returns at most 5 support and at most 5
resistance levels, each list ordered nearest-to-current-price first. -/
theorem level_extractor_invariant (bars : List OhlcvBar) (cur gap : ℚ) :
    (extractLevels bars cur gap).1.length ≤ 5 ∧
    (extractLevels bars cur gap).2.length ≤ 5 ∧
    List.Sorted (proxRel cur) (extractLevels bars cur gap).1 ∧
    List.Sorted (proxRel cur) (extractLevels bars cur gap).2 := by
  have hlen : ∀ ls : List PriceLevel, (rankLevels cur ls).length ≤ 5 :=
    fun ls => List.length_take_le 5 _
  have hsorted : ∀ ls : List PriceLevel,
      List.Sorted (proxRel cur) (rankLevels cur ls) := fun ls =>
    List.Pairwise.sublist (List.take_sublist 5 _)
      (List.sorted_insertionSort (proxRel cur) ls)
  exact ⟨hlen _, hlen _, hsorted _, hsorted _⟩

/-- C10: in the SymbolOverview level rendering, every displayed level in the
above list is strictly above the current price and every level in the below
list strictly below it (a level priced exactly at the current price appears
in neither), both lists are sorted in descending price order, and the above
list is not in proximity order. -/
theorem symbol_overview_level_split :
    (∀ (ls : List DispLevel) (cur : ℚ) (l : DispLevel),
      l ∈ aboveLevels ls cur → cur < l.level) ∧
    (∀ (ls : List DispLevel) (cur : ℚ) (l : DispLevel),
      l ∈ belowLevels ls cur → l.level < cur) ∧
    (∀ (ls : List DispLevel) (cur : ℚ),
      List.Sorted descRel (aboveLevels ls cur) ∧
      List.Sorted descRel (belowLevels ls cur)) ∧
    ¬ List.Sorted (dispProxRel 10) (aboveLevels [⟨20, "a"⟩, ⟨11, "b"⟩] 10) := by
  refine ⟨?_, ?_, fun ls cur => ⟨List.sorted_insertionSort _ _,
    List.sorted_insertionSort _ _⟩, ?_⟩
  · intro ls cur l hl
    rw [aboveLevels, (List.perm_insertionSort _ _).mem_iff, List.mem_filter] at hl
    exact of_decide_eq_true hl.2
  · intro ls cur l hl
    rw [belowLevels, (List.perm_insertionSort _ _).mem_iff, List.mem_filter] at hl
    exact of_decide_eq_true hl.2
  · intro hsort
    have h20 : aboveLevels ([⟨20, "a"⟩, ⟨11, "b"⟩] : List DispLevel) 10 =
        ([⟨20, "a"⟩, ⟨11, "b"⟩] : List DispLevel) := by decide
    rw [h20] at hsort
    have hrel := List.rel_of_sorted_cons hsort ⟨11, "b"⟩ (by simp)
    norm_num [dispProxRel, qabs] at hrel

/-- Witness for C10: a concrete level strictly above the current price is a
member of the rendered above list. -/
theorem symbol_overview_level_split_witness :
    (⟨20, "a"⟩ : DispLevel) ∈
      aboveLevels ([⟨20, "a"⟩, ⟨11, "b"⟩] : List DispLevel) 10 ∧
    (10 : ℚ) < (⟨20, "a"⟩ : DispLevel).level :=
  ⟨by decide,
   symbol_overview_level_split.1 ([⟨20, "a"⟩, ⟨11, "b"⟩] : List DispLevel) 10
     ⟨20, "a"⟩ (by decide)⟩

theorem diffs_forall_pos :
    ∀ {l : List ℚ}, l.Chain' (· < ·) → ∀ d ∈ diffs l, 0 < d
  | [], _, d, hd => by simp [diffs] at hd
  | [_], _, d, hd => by simp [diffs] at hd
  | a :: b :: rest, h, d, hd => by
    rw [List.chain'_cons] at h
    simp only [diffs, List.mem_cons] at hd
    rcases hd with rfl | hd
    · linarith [h.1]
    · exact diffs_forall_pos h.2 d hd

theorem diffs_forall_neg :
    ∀ {l : List ℚ}, l.Chain' (· > ·) → ∀ d ∈ diffs l, d < 0
  | [], _, d, hd => by simp [diffs] at hd
  | [_], _, d, hd => by simp [diffs] at hd
  | a :: b :: rest, h, d, hd => by
    rw [List.chain'_cons] at h
    simp only [diffs, List.mem_cons] at hd
    rcases hd with rfl | hd
    · linarith [h.1]
    · exact diffs_forall_neg h.2 d hd

theorem diffs_forall_zero :
    ∀ {l : List ℚ} {c : ℚ}, (∀ x ∈ l, x = c) → ∀ d ∈ diffs l, d = 0
  | [], _, _, d, hd => by simp [diffs] at hd
  | [_], _, _, d, hd => by simp [diffs] at hd
  | a :: b :: rest, c, h, d, hd => by
    simp only [diffs, List.mem_cons] at hd
    rcases hd with rfl | hd
    · rw [h a (by simp), h b (by simp)]
      ring
    · exact diffs_forall_zero (fun x hx => h x (List.mem_cons_of_mem _ hx)) d hd

theorem diffs_length : ∀ l : List ℚ, (diffs l).length = l.length - 1
  | [] => rfl
  | [_] => rfl
  | a :: b :: rest => by
    simp only [diffs, List.length_cons, diffs_length (b :: rest)]
    omega

theorem wilderFold_zero :
    ∀ {xs : List ℚ}, (∀ x ∈ xs, x = 0) → wilderFold 0 xs = 0
  | [], _ => rfl
  | a :: t, h => by
    have ha : a = 0 := h a (List.mem_cons_self a t)
    have h0 : ((0 : ℚ) * 13 + a) / 14 = 0 := by rw [ha]; norm_num
    show List.foldl _ (((0 : ℚ) * 13 + a) / 14) t = 0
    rw [h0]
    exact wilderFold_zero fun x hx => h x (List.mem_cons_of_mem _ hx)

theorem wilderFold_pos :
    ∀ {xs : List ℚ} {seed : ℚ}, 0 < seed → (∀ x ∈ xs, 0 ≤ x) →
      0 < wilderFold seed xs
  | [], _, hs, _ => hs
  | a :: t, seed, hs, h => by
    have ha : 0 ≤ a := h a (List.mem_cons_self a t)
    have hstep : 0 < (seed * 13 + a) / 14 := by
      apply div_pos (by linarith) (by norm_num)
    show 0 < List.foldl _ ((seed * 13 + a) / 14) t
    exact wilderFold_pos hstep fun x hx => h x (List.mem_cons_of_mem _ hx)

theorem avgLoss14_eq_zero {closes : List ℚ}
    (h : ∀ x ∈ lossesOf closes, x = 0) : avgLoss14 closes = 0 := by
  rw [avgLoss14, List.sum_eq_zero fun x hx => h x (List.mem_of_mem_take hx)]
  rw [show (0 : ℚ) / 14 = 0 by norm_num]
  exact wilderFold_zero fun x hx => h x (List.mem_of_mem_drop hx)

theorem avgGain14_eq_zero {closes : List ℚ}
    (h : ∀ x ∈ gainsOf closes, x = 0) : avgGain14 closes = 0 := by
  rw [avgGain14, List.sum_eq_zero fun x hx => h x (List.mem_of_mem_take hx)]
  rw [show (0 : ℚ) / 14 = 0 by norm_num]
  exact wilderFold_zero fun x hx => h x (List.mem_of_mem_drop hx)

theorem avgGain14_pos {closes : List ℚ} (hlen : 15 ≤ closes.length)
    (h : ∀ x ∈ gainsOf closes, 0 < x) : 0 < avgGain14 closes := by
  have hglen : 14 ≤ (gainsOf closes).length := by
    rw [gainsOf, List.length_map, diffs_length]
    omega
  have htake : (gainsOf closes).take 14 ≠ [] := by
    apply List.ne_nil_of_length_pos
    rw [List.length_take]
    omega
  have hsum : 0 < ((gainsOf closes).take 14).sum :=
    List.sum_pos _ (fun x hx => h x (List.mem_of_mem_take hx)) htake
  exact wilderFold_pos (div_pos hsum (by norm_num))
    fun x hx => le_of_lt (h x (List.mem_of_mem_drop hx))

theorem avgLoss14_pos {closes : List ℚ} (hlen : 15 ≤ closes.length)
    (h : ∀ x ∈ lossesOf closes, 0 < x) : 0 < avgLoss14 closes := by
  have hllen : 14 ≤ (lossesOf closes).length := by
    rw [lossesOf, List.length_map, diffs_length]
    omega
  have htake : (lossesOf closes).take 14 ≠ [] := by
    apply List.ne_nil_of_length_pos
    rw [List.length_take]
    omega
  have hsum : 0 < ((lossesOf closes).take 14).sum :=
    List.sum_pos _ (fun x hx => h x (List.mem_of_mem_take hx)) htake
  exact wilderFold_pos (div_pos hsum (by norm_num))
    fun x hx => le_of_lt (h x (List.mem_of_mem_drop hx))

/-- C4: RSI(14) boundary behavior — a strictly rising close series of
at least 15 bars yields RSI exactly 100 (average loss 0, average gain
positive), a strictly falling one yields exactly 0, and a flat series
yields the neutral 50; these exact values subsume the stated convergence
toward 100 and 0. -/
theorem rsi14_boundary :
    (∀ closes : List ℚ, 15 ≤ closes.length → closes.Chain' (· < ·) →
      rsi14 closes = some 100) ∧
    (∀ closes : List ℚ, 15 ≤ closes.length → closes.Chain' (· > ·) →
      rsi14 closes = some 0) ∧
    (∀ (closes : List ℚ) (c : ℚ), 15 ≤ closes.length → (∀ x ∈ closes, x = c) →
      rsi14 closes = some 50) := by
  refine ⟨fun closes hlen hmono => ?_, fun closes hlen hmono => ?_,
          fun closes c hlen hflat => ?_⟩
  · have hd := diffs_forall_pos hmono
    have hL : avgLoss14 closes = 0 := by
      apply avgLoss14_eq_zero
      intro x hx
      rw [lossesOf, List.mem_map] at hx
      obtain ⟨d, hdm, rfl⟩ := hx
      have := hd d hdm
      rw [max_eq_right (by linarith)]
    have hG : 0 < avgGain14 closes := by
      apply avgGain14_pos hlen
      intro x hx
      rw [gainsOf, List.mem_map] at hx
      obtain ⟨d, hdm, rfl⟩ := hx
      exact lt_of_lt_of_le (hd d hdm) (le_max_left _ _)
    rw [rsi14, if_neg (by omega), if_pos hL, if_pos hG]
  · have hd := diffs_forall_neg hmono
    have hG : avgGain14 closes = 0 := by
      apply avgGain14_eq_zero
      intro x hx
      rw [gainsOf, List.mem_map] at hx
      obtain ⟨d, hdm, rfl⟩ := hx
      have := hd d hdm
      rw [max_eq_right (by linarith)]
    have hL : 0 < avgLoss14 closes := by
      apply avgLoss14_pos hlen
      intro x hx
      rw [lossesOf, List.mem_map] at hx
      obtain ⟨d, hdm, rfl⟩ := hx
      have := hd d hdm
      exact lt_of_lt_of_le (by linarith) (le_max_left _ _)
    rw [rsi14, if_neg (by omega), if_neg (by linarith), hG]
    rw [show (0 : ℚ) / avgLoss14 closes = 0 from zero_div _]
    norm_num
  · have hd := diffs_forall_zero hflat
    have hL : avgLoss14 closes = 0 := by
      apply avgLoss14_eq_zero
      intro x hx
      rw [lossesOf, List.mem_map] at hx
      obtain ⟨d, hdm, rfl⟩ := hx
      rw [hd d hdm]
      simp
    have hG : avgGain14 closes = 0 := by
      apply avgGain14_eq_zero
      intro x hx
      rw [gainsOf, List.mem_map] at hx
      obtain ⟨d, hdm, rfl⟩ := hx
      rw [hd d hdm]
      simp
    rw [rsi14, if_neg (by omega), if_pos hL, if_neg (by rw [hG]; exact lt_irrefl 0)]

/-- Witness for C4 at concrete rising, falling and flat 15-bar series. -/
theorem rsi14_boundary_witness :
    rsi14 [1, 2, 3, 4, 5, 6, 7, 8, 9, 10, 11, 12, 13, 14, 15] = some 100 ∧
    rsi14 [15, 14, 13, 12, 11, 10, 9, 8, 7, 6, 5, 4, 3, 2, 1] = some 0 ∧
    rsi14 [7, 7, 7, 7, 7, 7, 7, 7, 7, 7, 7, 7, 7, 7, 7] = some 50 :=
  ⟨rsi14_boundary.1 _ (by decide) (by norm_num [List.chain'_cons]),
   rsi14_boundary.2.1 _ (by decide) (by norm_num [List.chain'_cons]),
   rsi14_boundary.2.2 _ 7 (by decide) (by decide)⟩

end AR
